import Mathlib

/-
Verification of the resumable media transfer engine (byte-range downloads,
chunked downloads, resumable uploads, retry policy) against its
specification.  The implementation modules are not shipped in this tree
(only the unit-test suites are), so every operation below is modelled from
the specification text, with the unit tests used to pin down behaviour
wherever they observe it (expected status tuples, mocked random calls,
mocked sleep sequences, and so on).
-/

namespace ResumableMedia

/-! ### Header mappings

Request and response headers are string-keyed mappings.  We model them as
association lists with the usual dictionary operations: `hset` overwrites
or appends a binding, `hget` looks the first binding up, `hdel` removes a
key (Python `dict.pop(key, None)`). -/

abbrev Headers := List (String × String)

def hset (h : Headers) (k v : String) : Headers :=
  match h with
  | [] => [(k, v)]
  | (k2, v2) :: rest => if k2 = k then (k, v) :: rest else (k2, v2) :: hset rest k v

def hget (h : Headers) (k : String) : Option String :=
  match h with
  | [] => none
  | (k2, v2) :: rest => if k2 = k then some v2 else hget rest k

def hdel (h : Headers) (k : String) : Headers :=
  h.filter (fun p => p.1 ≠ k)

theorem hget_hset_self (h : Headers) (k v : String) : hget (hset h k v) k = some v := by
  induction h with
  | nil => simp [hset, hget]
  | cons p rest ih =>
    obtain ⟨k2, v2⟩ := p
    by_cases hk : k2 = k
    · simp [hset, hget, hk]
    · simp [hset, hget, hk, ih]

theorem hget_hset_other (h : Headers) (k k2 v : String) (hne : k2 ≠ k) :
    hget (hset h k v) k2 = hget h k2 := by
  induction h with
  | nil =>
    simp only [hset, hget]
    rw [if_neg (fun hh : k = k2 => hne hh.symm)]
  | cons p rest ih =>
    obtain ⟨k3, v3⟩ := p
    by_cases hk : k3 = k
    · simp only [hset, if_pos hk, hget]
      rw [if_neg (fun hh : k = k2 => hne hh.symm),
        if_neg (fun hh : k3 = k2 => hne (hk.symm.trans hh).symm)]
    · simp only [hset, if_neg hk, hget]
      by_cases hk2 : k3 = k2
      · rw [if_pos hk2, if_pos hk2]
      · rw [if_neg hk2, if_neg hk2, ih]

theorem hget_hdel_self (h : Headers) (k : String) : hget (hdel h k) k = none := by
  induction h with
  | nil => simp [hdel, hget]
  | cons p rest ih =>
    obtain ⟨k2, v2⟩ := p
    by_cases hk : k2 = k
    · simpa [hdel, hget, hk] using ih
    · simpa [hdel, hget, hk] using ih

/-! ### Decimal digit strings -/

def digitVal (c : Char) : Nat := c.toNat - 48

def digitsVal (l : List Char) : Nat := l.foldl (fun n c => 10 * n + digitVal c) 0

theorem digitsVal_append_singleton (l : List Char) (c : Char) :
    digitsVal (l ++ [c]) = 10 * digitsVal l + digitVal c := by
  simp [digitsVal, List.foldl_append]

def toLowerList (l : List Char) : List Char := l.map Char.toLower

/-! ### Byte-range request header construction

Modelled from the spec: `_add_bytes_range` (byte-range utilities component)
formats the request `Range:` header from the optional `start` / `end`
offsets and stores it in the caller's headers mapping; the implementation
module is absent from this tree, so the five formatting rules of spec
section 4.1 are transcribed directly (the unit tests exercise all five). -/

def add_bytes_range (start stop : Option Int) (headers : Headers) : Headers :=
  match start, stop with
  | none, none => headers
  | some s, some e => hset headers "range" ("bytes=" ++ toString s ++ "-" ++ toString e)
  | none, some e => hset headers "range" ("bytes=0-" ++ toString e)
  | some s, none =>
    if 0 ≤ s then hset headers "range" ("bytes=" ++ toString s ++ "-")
    else hset headers "range" ("bytes=" ++ toString s)

/-! ### Content-Range response parsing

Modelled from the spec: `_get_range_info` (byte-range utilities component)
accepts exactly the form `bytes <a>-<b>/<c>` with a case-insensitive
leading token, requires `a ≤ b < c`, and fails (invalid-response error,
modelled as `none`) otherwise.  The implementation module is absent from
this tree; the unit tests pin the accepted example `Bytes 7-11/42` and the
rejected example `nope x-6/y`. -/

/-- Split `<digits>-<digits>/<digits>` into its three digit groups, failing
unless the separators appear exactly there and nothing trails. -/
def range_groups (l : List Char) : Option (List Char × List Char × List Char) :=
  match l.dropWhile Char.isDigit with
  | '-' :: r2 =>
    match r2.dropWhile Char.isDigit with
    | '/' :: r4 =>
      match r4.dropWhile Char.isDigit with
      | [] => some (l.takeWhile Char.isDigit, r2.takeWhile Char.isDigit, r4.takeWhile Char.isDigit)
      | _ => none
    | _ => none
  | _ => none

def get_range_info_l (l : List Char) : Option (Nat × Nat × Nat) :=
  match l with
  | c1 :: c2 :: c3 :: c4 :: c5 :: ' ' :: rest =>
    if toLowerList [c1, c2, c3, c4, c5] = ['b', 'y', 't', 'e', 's'] then
      match range_groups rest with
      | some (da, db, dc) =>
        if da ≠ [] ∧ db ≠ [] ∧ dc ≠ [] then
          if digitsVal da ≤ digitsVal db ∧ digitsVal db < digitsVal dc then
            some (digitsVal da, digitsVal db, digitsVal dc)
          else none
        else none
      | none => none
    else none
  | _ => none

def get_range_info (s : String) : Option (Nat × Nat × Nat) :=
  get_range_info_l s.toList

/-- A nonempty all-digit character group. -/
def isDigitGroup (l : List Char) : Prop := l ≠ [] ∧ ∀ c ∈ l, c.isDigit = true

/-- The grammar of acceptable `Content-Range:` response values, written
independently of the parser: a five-character case-insensitive `bytes`
token, a space, then three nonempty digit groups separated by `-` and `/`,
whose values satisfy `a ≤ b < c`. -/
def contentRangeForm (s : String) (a b c : Nat) : Prop :=
  ∃ t da db dc,
    s.toList = t ++ ' ' :: (da ++ '-' :: (db ++ '/' :: dc)) ∧
    toLowerList t = ['b', 'y', 't', 'e', 's'] ∧
    isDigitGroup da ∧ isDigitGroup db ∧ isDigitGroup dc ∧
    digitsVal da = a ∧ digitsVal db = b ∧ digitsVal dc = c ∧
    a ≤ b ∧ b < c

theorem takeWhile_group_append (p : Char → Bool) (l r : List Char) (c : Char)
    (hl : ∀ x ∈ l, p x = true) (hc : p c = false) :
    (l ++ c :: r).takeWhile p = l := by
  induction l with
  | nil => simp [List.takeWhile, hc]
  | cons x xs ih =>
    have hx : p x = true := hl x (List.mem_cons_self x xs)
    have hxs : ∀ y ∈ xs, p y = true := fun y hy => hl y (List.mem_cons_of_mem x hy)
    simp [List.takeWhile, hx, ih hxs]

theorem dropWhile_group_append (p : Char → Bool) (l r : List Char) (c : Char)
    (hl : ∀ x ∈ l, p x = true) (hc : p c = false) :
    (l ++ c :: r).dropWhile p = c :: r := by
  induction l with
  | nil => simp [List.dropWhile, hc]
  | cons x xs ih =>
    have hx : p x = true := hl x (List.mem_cons_self x xs)
    have hxs : ∀ y ∈ xs, p y = true := fun y hy => hl y (List.mem_cons_of_mem x hy)
    simp [List.dropWhile, hx, ih hxs]

theorem takeWhile_all (p : Char → Bool) (l : List Char) (hl : ∀ x ∈ l, p x = true) :
    l.takeWhile p = l := by
  induction l with
  | nil => rfl
  | cons x xs ih =>
    have hx : p x = true := hl x (List.mem_cons_self x xs)
    have hxs : ∀ y ∈ xs, p y = true := fun y hy => hl y (List.mem_cons_of_mem x hy)
    simp [List.takeWhile, hx, ih hxs]

theorem dropWhile_all (p : Char → Bool) (l : List Char) (hl : ∀ x ∈ l, p x = true) :
    l.dropWhile p = [] := by
  induction l with
  | nil => rfl
  | cons x xs ih =>
    have hx : p x = true := hl x (List.mem_cons_self x xs)
    have hxs : ∀ y ∈ xs, p y = true := fun y hy => hl y (List.mem_cons_of_mem x hy)
    simp [List.dropWhile, hx, ih hxs]

theorem range_groups_sound (l : List Char) (da db dc : List Char)
    (h : range_groups l = some (da, db, dc)) :
    l = da ++ '-' :: (db ++ '/' :: dc) ∧
    (∀ c ∈ da, c.isDigit = true) ∧ (∀ c ∈ db, c.isDigit = true) ∧
    (∀ c ∈ dc, c.isDigit = true) := by
  unfold range_groups at h
  split at h
  case h_2 => exact absurd h (by simp)
  case h_1 r2 hdrop =>
    split at h
    case h_2 => exact absurd h (by simp)
    case h_1 r4 hdrop2 =>
      split at h
      case h_2 => exact absurd h (by simp)
      case h_1 hdrop3 =>
        injection h with h
        have hda : l.takeWhile Char.isDigit = da := congrArg Prod.fst h
        have hdb : r2.takeWhile Char.isDigit = db := congrArg (fun p => p.2.1) h
        have hdc : r4.takeWhile Char.isDigit = dc := congrArg (fun p => p.2.2) h
        refine ⟨?_, ?_, ?_, ?_⟩
        · calc l = l.takeWhile Char.isDigit ++ l.dropWhile Char.isDigit :=
                (List.takeWhile_append_dropWhile Char.isDigit _).symm
            _ = da ++ '-' :: r2 := by rw [hda, hdrop]
            _ = da ++ '-' :: (db ++ '/' :: dc) := by
                have hr2 : r2 = db ++ '/' :: dc := by
                  calc r2 = r2.takeWhile Char.isDigit ++ r2.dropWhile Char.isDigit :=
                        (List.takeWhile_append_dropWhile Char.isDigit _).symm
                    _ = db ++ '/' :: r4 := by rw [hdb, hdrop2]
                    _ = db ++ '/' :: dc := by
                        have hr4 : r4 = dc := by
                          calc r4 = r4.takeWhile Char.isDigit ++ r4.dropWhile Char.isDigit :=
                                (List.takeWhile_append_dropWhile Char.isDigit _).symm
                            _ = dc ++ [] := by rw [hdc, hdrop3]
                            _ = dc := by simp
                        rw [hr4]
                rw [hr2]
        · intro c hc
          rw [← hda] at hc
          exact List.mem_takeWhile_imp hc
        · intro c hc
          rw [← hdb] at hc
          exact List.mem_takeWhile_imp hc
        · intro c hc
          rw [← hdc] at hc
          exact List.mem_takeWhile_imp hc

theorem range_groups_complete (da db dc : List Char)
    (hda : ∀ c ∈ da, c.isDigit = true) (hdb : ∀ c ∈ db, c.isDigit = true)
    (hdc : ∀ c ∈ dc, c.isDigit = true) :
    range_groups (da ++ '-' :: (db ++ '/' :: dc)) = some (da, db, dc) := by
  have hdash : Char.isDigit '-' = false := by decide
  have hslash : Char.isDigit '/' = false := by decide
  unfold range_groups
  rw [dropWhile_group_append Char.isDigit da _ '-' hda hdash,
    takeWhile_group_append Char.isDigit da _ '-' hda hdash]
  simp only
  rw [dropWhile_group_append Char.isDigit db _ '/' hdb hslash,
    takeWhile_group_append Char.isDigit db _ '/' hdb hslash]
  simp only
  rw [dropWhile_all Char.isDigit dc hdc, takeWhile_all Char.isDigit dc hdc]

theorem get_range_info_l_sound (l : List Char) (a b c : Nat)
    (h : get_range_info_l l = some (a, b, c)) :
    ∃ t da db dc,
      l = t ++ ' ' :: (da ++ '-' :: (db ++ '/' :: dc)) ∧
      toLowerList t = ['b', 'y', 't', 'e', 's'] ∧
      isDigitGroup da ∧ isDigitGroup db ∧ isDigitGroup dc ∧
      digitsVal da = a ∧ digitsVal db = b ∧ digitsVal dc = c ∧
      a ≤ b ∧ b < c := by
  unfold get_range_info_l at h
  split at h
  case h_2 => exact absurd h (by simp)
  case h_1 c1 c2 c3 c4 c5 rest =>
    split at h
    case isFalse => exact absurd h (by simp)
    case isTrue htok =>
      split at h
      case h_2 => exact absurd h (by simp)
      case h_1 da db dc hg =>
        split at h
        case isFalse => exact absurd h (by simp)
        case isTrue hne =>
          split at h
          case isFalse => exact absurd h (by simp)
          case isTrue hord =>
            injection h with h
            simp only [Prod.mk.injEq] at h
            obtain ⟨ha, hb, hc⟩ := h
            obtain ⟨hdecomp, hda, hdb, hdc⟩ := range_groups_sound rest da db dc hg
            exact ⟨[c1, c2, c3, c4, c5], da, db, dc,
              by rw [hdecomp]; rfl, htok,
              ⟨hne.1, hda⟩, ⟨hne.2.1, hdb⟩, ⟨hne.2.2, hdc⟩,
              ha, hb, hc, ha ▸ hb ▸ hord.1, hb ▸ hc ▸ hord.2⟩


theorem get_range_info_l_cons (c1 c2 c3 c4 c5 : Char) (rest : List Char) :
    get_range_info_l (c1 :: c2 :: c3 :: c4 :: c5 :: ' ' :: rest) =
      if toLowerList [c1, c2, c3, c4, c5] = ['b', 'y', 't', 'e', 's'] then
        match range_groups rest with
        | some (da, db, dc) =>
          if da ≠ [] ∧ db ≠ [] ∧ dc ≠ [] then
            if digitsVal da ≤ digitsVal db ∧ digitsVal db < digitsVal dc then
              some (digitsVal da, digitsVal db, digitsVal dc)
            else none
          else none
        | none => none
      else none := rfl

theorem get_range_info_l_complete (t da db dc : List Char) (a b c : Nat)
    (htok : toLowerList t = ['b', 'y', 't', 'e', 's'])
    (hda : isDigitGroup da) (hdb : isDigitGroup db) (hdc : isDigitGroup dc)
    (hva : digitsVal da = a) (hvb : digitsVal db = b) (hvc : digitsVal dc = c)
    (hab : a ≤ b) (hbc : b < c) :
    get_range_info_l (t ++ ' ' :: (da ++ '-' :: (db ++ '/' :: dc))) = some (a, b, c) := by
  subst hva hvb hvc
  have hlen : t.length = 5 := by
    have := congrArg List.length htok
    simpa [toLowerList] using this
  rcases t with _ | ⟨c1, _ | ⟨c2, _ | ⟨c3, _ | ⟨c4, _ | ⟨c5, _ | ⟨c6, t7⟩⟩⟩⟩⟩⟩ <;>
    simp only [List.length] at hlen <;> try omega
  show get_range_info_l
      (c1 :: c2 :: c3 :: c4 :: c5 :: ' ' :: (da ++ '-' :: (db ++ '/' :: dc))) = _
  rw [get_range_info_l_cons, if_pos htok, range_groups_complete da db dc hda.2 hdb.2 hdc.2]
  simp only
  rw [if_pos ⟨hda.1, hdb.1, hdc.1⟩, if_pos ⟨hab, hbc⟩]


end ResumableMedia

namespace ResumableMedia

example : get_range_info "Bytes 7-11/42" = some (7, 11, 42) := by decide
example : get_range_info "nope x-6/y" = none := by decide
example : get_range_info "bytes 11-7/3" = none := by decide
example : get_range_info "bytes 07-011/42" = some (7, 11, 42) := by decide

end ResumableMedia

/-- C6: for every input string, `_get_range_info` accepts exactly the form
`bytes <a>-<b>/<c>` with a case-insensitive leading token and returns the
integer triple `(a, b, c)` satisfying `a ≤ b < c`; it fails (invalid
response, modelled as `none`) on every string not of that form or not
satisfying those inequalities. -/
theorem C6_get_range_info_exact (s : String) (a b c : Nat) :
    ResumableMedia.get_range_info s = some (a, b, c) ↔
      ResumableMedia.contentRangeForm s a b c := by
  constructor
  · intro h
    obtain ⟨t, da, db, dc, hdec, htok, hda, hdb, hdc, hva, hvb, hvc, hab, hbc⟩ :=
      ResumableMedia.get_range_info_l_sound s.toList a b c h
    exact ⟨t, da, db, dc, hdec, htok, hda, hdb, hdc, hva, hvb, hvc, hab, hbc⟩
  · rintro ⟨t, da, db, dc, hdec, htok, hda, hdb, hdc, hva, hvb, hvc, hab, hbc⟩
    unfold ResumableMedia.get_range_info
    rw [hdec]
    exact ResumableMedia.get_range_info_l_complete t da db dc a b c htok hda hdb hdc
      hva hvb hvc hab hbc

/-- C7: for every pair of optional start and end values, `_add_bytes_range`
follows the five formatting rules of the spec (both → `bytes=s-e`; end only
→ `bytes=0-e`; nonnegative start only → `bytes=s-`; negative start only →
the suffix form `bytes=s`; neither → headers unchanged, no Range header
added), and never touches any header key other than `range`. -/
theorem C7_add_bytes_range_rules (s e : Int) (h : ResumableMedia.Headers) :
    (ResumableMedia.add_bytes_range none none h = h) ∧
    (ResumableMedia.add_bytes_range (some s) (some e) h =
      ResumableMedia.hset h "range" ("bytes=" ++ toString s ++ "-" ++ toString e)) ∧
    (ResumableMedia.add_bytes_range none (some e) h =
      ResumableMedia.hset h "range" ("bytes=0-" ++ toString e)) ∧
    (0 ≤ s → ResumableMedia.add_bytes_range (some s) none h =
      ResumableMedia.hset h "range" ("bytes=" ++ toString s ++ "-")) ∧
    (s < 0 → ResumableMedia.add_bytes_range (some s) none h =
      ResumableMedia.hset h "range" ("bytes=" ++ toString s)) ∧
    (∀ st sp : Option Int, ∀ k, k ≠ "range" →
      ResumableMedia.hget (ResumableMedia.add_bytes_range st sp h) k =
        ResumableMedia.hget h k) := by
  refine ⟨rfl, rfl, rfl, ?_, ?_, ?_⟩
  · intro hs
    simp [ResumableMedia.add_bytes_range, hs]
  · intro hs
    simp [ResumableMedia.add_bytes_range, not_le.mpr hs]
  · intro st sp k hk
    rcases st with _ | s2 <;> rcases sp with _ | e2
    · rfl
    · exact ResumableMedia.hget_hset_other h "range" k _ hk
    · simp only [ResumableMedia.add_bytes_range]
      split
      · exact ResumableMedia.hget_hset_other h "range" k _ hk
      · exact ResumableMedia.hget_hset_other h "range" k _ hk
    · exact ResumableMedia.hget_hset_other h "range" k _ hk

/-- Witness for C7: the suffix-form rule at the concrete input of the unit
test `test_start_as_offset`. -/
theorem C7_add_bytes_range_rules_witness :
    ResumableMedia.add_bytes_range (some (-123454321)) none [] =
      [("range", "bytes=-123454321")] := by
  have H := C7_add_bytes_range_rules (-123454321) 0 []
  exact (H.2.2.2.2.1 (by decide)).trans (by decide)

namespace ResumableMedia

/-! ### Multipart boundary generation

Modelled from the spec: `_get_boundary` (multipart upload component) draws
a uniform random integer in `[0, MAX)` — the implementation is absent from
this tree; the unit test pins the draw to `random.randrange(sys.maxsize)`
— and renders it as a 19-digit zero-padded decimal token between the
`===============` and `==` sentinels.  The random draw is passed in as the
argument `r`. -/

def MAXSIZE : Nat := 9223372036854775807

def digitCharOf (m : Nat) : Char :=
  match m with
  | 0 => '0'
  | 1 => '1'
  | 2 => '2'
  | 3 => '3'
  | 4 => '4'
  | 5 => '5'
  | 6 => '6'
  | 7 => '7'
  | 8 => '8'
  | _ => '9'

def natDigitsPadRev : Nat → Nat → List Char
  | 0, _ => []
  | w + 1, n => digitCharOf (n % 10) :: natDigitsPadRev w (n / 10)

def padDigits (w n : Nat) : List Char := (natDigitsPadRev w n).reverse

def get_boundary (r : Nat) : String :=
  "===============" ++ String.mk (padDigits 19 r) ++ "=="

theorem digitVal_digitCharOf (m : Nat) (h : m < 10) : digitVal (digitCharOf m) = m := by
  interval_cases m <;> rfl

theorem isDigit_digitCharOf (m : Nat) : (digitCharOf m).isDigit = true := by
  unfold digitCharOf
  split <;> rfl

theorem length_natDigitsPadRev (w : Nat) : ∀ n, (natDigitsPadRev w n).length = w := by
  induction w with
  | zero => intro n; rfl
  | succ w ih => intro n; simp [natDigitsPadRev, ih]

theorem mem_natDigitsPadRev_isDigit (w : Nat) :
    ∀ n, ∀ c ∈ natDigitsPadRev w n, c.isDigit = true := by
  induction w with
  | zero => intro n c hc; simp [natDigitsPadRev] at hc
  | succ w ih =>
    intro n c hc
    rw [natDigitsPadRev] at hc
    rcases List.mem_cons.mp hc with hc | hc
    · rw [hc]; exact isDigit_digitCharOf (n % 10)
    · exact ih (n / 10) c hc

theorem digitsVal_padDigits (w : Nat) : ∀ n, n < 10 ^ w → digitsVal (padDigits w n) = n := by
  induction w with
  | zero =>
    intro n hn
    have : n = 0 := by simpa using Nat.lt_one_iff.mp (by simpa using hn)
    simp [padDigits, natDigitsPadRev, digitsVal, this]
  | succ w ih =>
    intro n hn
    have hdiv : n / 10 < 10 ^ w := by
      rw [Nat.div_lt_iff_lt_mul (by norm_num : 0 < 10)]
      rw [pow_succ] at hn
      exact hn
    unfold padDigits natDigitsPadRev
    rw [List.reverse_cons, digitsVal_append_singleton]
    rw [show (natDigitsPadRev w (n / 10)).reverse = padDigits w (n / 10) from rfl]
    rw [ih (n / 10) hdiv, digitVal_digitCharOf (n % 10) (Nat.mod_lt n (by norm_num))]
    omega

end ResumableMedia

/-- C9: every multipart boundary token produced by `_get_boundary` from a
random draw `r` in `[0, MAX)` is a 19-digit decimal rendering of `r`
surrounded by the `===============` sentinel on the left and `==` on the
right. -/
theorem C9_get_boundary_shape (r : Nat) (hr : r < ResumableMedia.MAXSIZE) :
    (ResumableMedia.get_boundary r).toList =
      "===============".toList ++ ResumableMedia.padDigits 19 r ++ "==".toList ∧
    (ResumableMedia.padDigits 19 r).length = 19 ∧
    (∀ c ∈ ResumableMedia.padDigits 19 r, c.isDigit = true) ∧
    ResumableMedia.digitsVal (ResumableMedia.padDigits 19 r) = r := by
  refine ⟨?_, ?_, ?_, ?_⟩
  · simp [ResumableMedia.get_boundary]
  · simp [ResumableMedia.padDigits, ResumableMedia.length_natDigitsPadRev]
  · intro c hc
    exact ResumableMedia.mem_natDigitsPadRev_isDigit 19 r c (List.mem_reverse.mp hc)
  · refine ResumableMedia.digitsVal_padDigits 19 r ?_
    have : ResumableMedia.MAXSIZE < 10 ^ 19 := by norm_num [ResumableMedia.MAXSIZE]
    omega

/-- Witness for C9: the draw pinned by the unit test `test__get_boundary`
(`random.randrange` mocked to 1234567890123456789) yields the documented
token, and the digit-value property holds there. -/
theorem C9_get_boundary_shape_witness :
    ResumableMedia.get_boundary 1234567890123456789 =
      "===============1234567890123456789==" ∧
    ResumableMedia.digitsVal (ResumableMedia.padDigits 19 1234567890123456789) =
      1234567890123456789 := by
  have H := C9_get_boundary_shape 1234567890123456789 (by norm_num [ResumableMedia.MAXSIZE])
  exact ⟨by decide, H.2.2.2⟩

namespace ResumableMedia

/-! ### Resumable upload state machine

Modelled from the spec (sections 4.6 and 7) and pinned by the unit tests in
`tests/unit/test_upload.py`: the implementation module is absent from this
tree.  The tests fix the acceptable statuses of `_process_response` to
exactly 200 and 308 (`error.args[3] == 200`, `error.args[4] == 308`), the
`Range: bytes=0-<k>` parsing behaviour, the recover flow, and the
precondition checks of `_prepare_request` / `_prepare_recover_request`.
The transport is abstracted away: each operation takes the server's
response as an argument, and a raised exception is modelled as a `some`
error paired with the post-state. -/

inductive TransferError where
  | invalidResponse (info : String)
  | invalidState (info : String)
  | dataCorruption (url expected computed : String)
deriving DecidableEq, Repr

structure HttpResponse where
  status : Nat
  headers : Headers
deriving DecidableEq, Repr

def PERMANENT_REDIRECT : Nat := 308

structure UploadState where
  uploadUrl : String
  chunkSize : Nat
  headers : Headers
  bytesUploaded : Nat
  totalBytes : Nat
  resumableUrl : Option String
  stream : List Nat
  streamPos : Nat
  contentType : String
  finished : Bool
  invalid : Bool
deriving DecidableEq, Repr

/-- Parse an upload `Range:` response header of the exact form
`bytes=0-<k>` (case-insensitive leading token), yielding `k`. -/
def parse_upload_range_l (l : List Char) : Option Nat :=
  match l with
  | c1 :: c2 :: c3 :: c4 :: c5 :: '=' :: '0' :: '-' :: rest =>
    if toLowerList [c1, c2, c3, c4, c5] = ['b', 'y', 't', 'e', 's'] ∧
        rest ≠ [] ∧ rest.all Char.isDigit then
      some (digitsVal rest)
    else none
  | _ => none

def parse_upload_range (s : String) : Option Nat := parse_upload_range_l s.toList

/-- Per-chunk request construction: precondition checks, then a fresh
headers mapping holding only the engine's `content-range` and
`content-type` entries (the unit tests assert the caller headers are not
incorporated and the stored headers are untouched). -/
def upload_prepare_request (u : UploadState) : Except TransferError (List Nat × Headers) :=
  if u.finished then Except.error (.invalidState "Upload has finished.")
  else if u.invalid then
    Except.error (.invalidState "Upload is in an invalid state. To recover call recover().")
  else if u.resumableUrl = none then
    Except.error (.invalidState "This upload has not been initiated.")
  else if u.streamPos ≠ u.bytesUploaded then
    Except.error (.invalidState "Bytes stream is in unexpected state.")
  else
    let payload := (u.stream.drop u.streamPos).take u.chunkSize
    let crange := "bytes " ++ toString u.bytesUploaded ++ "-" ++
      toString (u.bytesUploaded + payload.length - 1) ++ "/" ++ toString u.totalBytes
    Except.ok (payload, [("content-range", crange), ("content-type", u.contentType)])

/-- Response classification for a chunk transmission: 200 finishes the
upload, 308 with a well-formed `Range:` advances `bytes_uploaded`, 308
with a missing or malformed `Range:` and every other status mark the
upload invalid and raise an invalid-response error. -/
def upload_process_response (u : UploadState) (r : HttpResponse) :
    UploadState × Option TransferError :=
  if r.status = 200 then
    ({ u with bytesUploaded := u.totalBytes, finished := true }, none)
  else if r.status = PERMANENT_REDIRECT then
    match hget r.headers "range" with
    | none =>
      ({ u with invalid := true },
        some (.invalidResponse "Response headers must contain range header"))
    | some v =>
      match parse_upload_range v with
      | none =>
        ({ u with invalid := true },
          some (.invalidResponse "Unexpected range header"))
      | some k => ({ u with bytesUploaded := k + 1 }, none)
  else
    ({ u with invalid := true },
      some (.invalidResponse "Request failed with unexpected status code"))

def transmit_next_chunk (u : UploadState) (r : HttpResponse) :
    UploadState × Option TransferError :=
  match upload_prepare_request u with
  | Except.error e => (u, some e)
  | Except.ok (payload, _engineHeaders) =>
    upload_process_response { u with streamPos := u.streamPos + payload.length } r

/-- Recovery request construction: requires the upload to be invalid (the
unit test `test__prepare_recover_request_not_invalid` pins the ValueError),
and builds a fresh headers mapping holding only `content-range: bytes */*`. -/
def upload_prepare_recover_request (u : UploadState) : Except TransferError Headers :=
  if u.invalid then Except.ok [("content-range", "bytes */*")]
  else Except.error (.invalidState "Upload is not in invalid state, there is no need to recover.")

/-- Recovery response processing: requires 308; a present well-formed
`Range:` sets `bytes_uploaded = k + 1`, an absent one resets it to 0; the
stream is sought to the new position and `invalid` is cleared.  A
malformed `Range:` or a non-308 status leaves the state untouched (hence
still invalid) and raises an invalid-response error. -/
def upload_process_recover_response (u : UploadState) (r : HttpResponse) :
    UploadState × Option TransferError :=
  if r.status ≠ PERMANENT_REDIRECT then
    (u, some (.invalidResponse "Request failed with unexpected status code"))
  else
    match hget r.headers "range" with
    | none => ({ u with bytesUploaded := 0, streamPos := 0, invalid := false }, none)
    | some v =>
      match parse_upload_range v with
      | none => (u, some (.invalidResponse "Unexpected range header"))
      | some k =>
        ({ u with bytesUploaded := k + 1, streamPos := k + 1, invalid := false }, none)

def recover (u : UploadState) (r : HttpResponse) : UploadState × Option TransferError :=
  match upload_prepare_recover_request u with
  | Except.error e => (u, some e)
  | Except.ok _engineHeaders => upload_process_recover_response u r

end ResumableMedia

namespace ResumableMedia

theorem transmit_eq_of_preconds (u : UploadState) (r : HttpResponse)
    (hfin : u.finished = false) (hinv : u.invalid = false)
    (hinit : u.resumableUrl ≠ none) (hpos : u.streamPos = u.bytesUploaded) :
    transmit_next_chunk u r =
      upload_process_response
        { u with streamPos :=
            u.streamPos + ((u.stream.drop u.streamPos).take u.chunkSize).length } r := by
  unfold transmit_next_chunk upload_prepare_request
  simp [hfin, hinv, hinit, hpos]

theorem recover_ok_invalid_false (u u2 : UploadState) (r : HttpResponse)
    (h : recover u r = (u2, none)) : u2.invalid = false := by
  unfold recover at h
  split at h
  case h_1 => simp at h
  case h_2 =>
    unfold upload_process_recover_response at h
    split at h
    case isTrue => simp at h
    case isFalse =>
      split at h
      case h_1 =>
        have h1 := congrArg Prod.fst h
        simp at h1
        rw [← h1]
      case h_2 v hv =>
        split at h
        case h_1 => simp at h
        case h_2 k hk =>
          have h1 := congrArg Prod.fst h
          simp at h1
          rw [← h1]

theorem upload_process_response_headers (u : UploadState) (r : HttpResponse) :
    (upload_process_response u r).1.headers = u.headers := by
  unfold upload_process_response
  split
  · rfl
  · split
    · split
      · rfl
      · split <;> rfl
    · rfl

theorem upload_process_recover_response_headers (u : UploadState) (r : HttpResponse) :
    (upload_process_recover_response u r).1.headers = u.headers := by
  unfold upload_process_recover_response
  split
  · rfl
  · split
    · rfl
    · split <;> rfl

end ResumableMedia

/-- C1 (amended): for every `ResumableUpload` that has been initiated and
is neither finished nor invalid (and whose stream position agrees with
`bytes_uploaded`), processing the response to `transmit_next_chunk`
classifies it as follows: a 200 status sets `bytes_uploaded` to
`total_bytes` and `finished` to true; a 308 status with a header
`Range: bytes=0-<k>` sets `bytes_uploaded` to `k + 1` and leaves the
upload active; a 308 status whose `Range:` header is missing or malformed
marks the upload invalid and raises an invalid-response error; any other
status — including 201, contrary to the original claim — marks the upload
invalid and raises an invalid-response error. -/
theorem C1_transmit_classification (u : ResumableMedia.UploadState)
    (r : ResumableMedia.HttpResponse)
    (hfin : u.finished = false) (hinv : u.invalid = false)
    (hinit : u.resumableUrl ≠ none) (hpos : u.streamPos = u.bytesUploaded) :
    (r.status = 200 →
      (ResumableMedia.transmit_next_chunk u r).1.bytesUploaded = u.totalBytes ∧
      (ResumableMedia.transmit_next_chunk u r).1.finished = true ∧
      (ResumableMedia.transmit_next_chunk u r).2 = none) ∧
    (∀ v k, r.status = 308 → ResumableMedia.hget r.headers "range" = some v →
      ResumableMedia.parse_upload_range v = some k →
      (ResumableMedia.transmit_next_chunk u r).1.bytesUploaded = k + 1 ∧
      (ResumableMedia.transmit_next_chunk u r).1.finished = false ∧
      (ResumableMedia.transmit_next_chunk u r).1.invalid = false ∧
      (ResumableMedia.transmit_next_chunk u r).2 = none) ∧
    (r.status = 308 → ResumableMedia.hget r.headers "range" = none →
      (ResumableMedia.transmit_next_chunk u r).1.invalid = true ∧
      (ResumableMedia.transmit_next_chunk u r).2 ≠ none) ∧
    (∀ v, r.status = 308 → ResumableMedia.hget r.headers "range" = some v →
      ResumableMedia.parse_upload_range v = none →
      (ResumableMedia.transmit_next_chunk u r).1.invalid = true ∧
      (ResumableMedia.transmit_next_chunk u r).2 ≠ none) ∧
    (r.status ≠ 200 → r.status ≠ 308 →
      (ResumableMedia.transmit_next_chunk u r).1.invalid = true ∧
      (ResumableMedia.transmit_next_chunk u r).2 ≠ none) := by
  rw [ResumableMedia.transmit_eq_of_preconds u r hfin hinv hinit hpos]
  refine ⟨?_, ?_, ?_, ?_, ?_⟩
  · intro h200
    simp [ResumableMedia.upload_process_response, h200]
  · intro v k h308 hr hp
    simp [ResumableMedia.upload_process_response, h308, ResumableMedia.PERMANENT_REDIRECT,
      hr, hp, hinv, hfin]
  · intro h308 hr
    simp [ResumableMedia.upload_process_response, h308, ResumableMedia.PERMANENT_REDIRECT, hr]
  · intro v h308 hr hp
    simp [ResumableMedia.upload_process_response, h308, ResumableMedia.PERMANENT_REDIRECT,
      hr, hp]
  · intro hn200 hn308
    simp [ResumableMedia.upload_process_response, hn200, ResumableMedia.PERMANENT_REDIRECT,
      hn308]

/-- Witness for C1: the scenario of unit test `test_transmit_next_chunk`
(31-byte stream, chunk size 10, 308 response with `Range: bytes=0-9`)
advances `bytes_uploaded` to 10 and keeps the upload active. -/
theorem C1_transmit_classification_witness :
    (ResumableMedia.transmit_next_chunk
        ⟨"u", 10, [], 0, 31, some "r", List.replicate 31 0, 0, "text/plain", false, false⟩
        ⟨308, [("range", "bytes=0-9")]⟩).1.bytesUploaded = 9 + 1 ∧
    (ResumableMedia.transmit_next_chunk
        ⟨"u", 10, [], 0, 31, some "r", List.replicate 31 0, 0, "text/plain", false, false⟩
        ⟨308, [("range", "bytes=0-9")]⟩).1.finished = false ∧
    (ResumableMedia.transmit_next_chunk
        ⟨"u", 10, [], 0, 31, some "r", List.replicate 31 0, 0, "text/plain", false, false⟩
        ⟨308, [("range", "bytes=0-9")]⟩).1.invalid = false ∧
    (ResumableMedia.transmit_next_chunk
        ⟨"u", 10, [], 0, 31, some "r", List.replicate 31 0, 0, "text/plain", false, false⟩
        ⟨308, [("range", "bytes=0-9")]⟩).2 = none := by
  exact (C1_transmit_classification _ _ rfl rfl (by decide) rfl).2.1
    "bytes=0-9" 9 rfl (by decide) (by decide)

/-- Counterexample for C1 as stated: on an initiated, active upload a 201
response does not finish the upload; it marks it invalid and raises an
invalid-response error (the unit test `test__process_response_bad_status`
pins the acceptable statuses to exactly 200 and 308). -/
theorem C1_counterexample_status_201 :
    (ResumableMedia.transmit_next_chunk
        ⟨"u", 10, [], 0, 31, some "r", List.replicate 31 0, 0, "text/plain", false, false⟩
        ⟨201, []⟩).1.finished = false ∧
    (ResumableMedia.transmit_next_chunk
        ⟨"u", 10, [], 0, 31, some "r", List.replicate 31 0, 0, "text/plain", false, false⟩
        ⟨201, []⟩).1.invalid = true ∧
    (ResumableMedia.transmit_next_chunk
        ⟨"u", 10, [], 0, 31, some "r", List.replicate 31 0, 0, "text/plain", false, false⟩
        ⟨201, []⟩).2 ≠ none := by decide

/-- C8 (amended): after a successful `recover` the upload is no longer
invalid, so an immediate second `recover` is rejected with an
invalid-state error before any request is made, leaving `bytes_uploaded`
(and the whole state) unchanged rather than yielding it again. -/
theorem C8_second_recover_rejected (u u2 : ResumableMedia.UploadState)
    (r r2 : ResumableMedia.HttpResponse)
    (h : ResumableMedia.recover u r = (u2, none)) :
    ResumableMedia.recover u2 r2 =
      (u2, some (ResumableMedia.TransferError.invalidState
        "Upload is not in invalid state, there is no need to recover.")) ∧
    (ResumableMedia.recover u2 r2).1.bytesUploaded = u2.bytesUploaded := by
  have hinv2 := ResumableMedia.recover_ok_invalid_false u u2 r h
  have hrec : ResumableMedia.recover u2 r2 =
      (u2, some (ResumableMedia.TransferError.invalidState
        "Upload is not in invalid state, there is no need to recover.")) := by
    unfold ResumableMedia.recover ResumableMedia.upload_prepare_recover_request
    simp [hinv2]
  exact ⟨hrec, by rw [hrec]⟩

/-- Witness for C8: a concrete invalid upload recovered by a 308 response
with `Range: bytes=0-11`; the immediate second recover is rejected. -/
theorem C8_second_recover_rejected_witness :
    ResumableMedia.recover
        ⟨"u", 10, [], 12, 31, some "r", [], 12, "text/plain", false, false⟩
        ⟨308, [("range", "bytes=0-11")]⟩ =
      (⟨"u", 10, [], 12, 31, some "r", [], 12, "text/plain", false, false⟩,
        some (ResumableMedia.TransferError.invalidState
          "Upload is not in invalid state, there is no need to recover.")) := by
  exact (C8_second_recover_rejected
    ⟨"u", 10, [], 5, 31, some "r", [], 5, "text/plain", false, true⟩
    ⟨"u", 10, [], 12, 31, some "r", [], 12, "text/plain", false, false⟩
    ⟨308, [("range", "bytes=0-11")]⟩
    ⟨308, [("range", "bytes=0-11")]⟩ (by decide)).1

/-- Counterexample for C8 as stated: a recover call succeeds
(`bytes_uploaded = 12`), but immediately calling recover again does not
succeed — it raises an invalid-state error (`_prepare_recover_request`
requires the upload to be invalid) — so the second call yields an error,
not the same `bytes_uploaded`. -/
theorem C8_counterexample_recover_twice :
    (ResumableMedia.recover
        ⟨"u", 10, [], 5, 31, some "r", [], 5, "text/plain", false, true⟩
        ⟨308, [("range", "bytes=0-11")]⟩).2 = none ∧
    (ResumableMedia.recover
        ⟨"u", 10, [], 5, 31, some "r", [], 5, "text/plain", false, true⟩
        ⟨308, [("range", "bytes=0-11")]⟩).1.bytesUploaded = 12 ∧
    (ResumableMedia.recover
      (ResumableMedia.recover
          ⟨"u", 10, [], 5, 31, some "r", [], 5, "text/plain", false, true⟩
          ⟨308, [("range", "bytes=0-11")]⟩).1
        ⟨308, [("range", "bytes=0-11")]⟩).2 ≠ none := by decide

/-- C10: the per-chunk request headers built by `_prepare_request` and the
recovery request headers built by `_prepare_recover_request` are fresh
mappings holding only the engine's entries (`content-range` and, for
chunks, `content-type`) — no key from the caller-supplied headers mapping
appears in them — and both `transmit_next_chunk` and `recover` leave the
upload's stored headers mapping unchanged. -/
theorem C10_fresh_request_headers (u : ResumableMedia.UploadState) :
    (∀ payload hs, ResumableMedia.upload_prepare_request u = Except.ok (payload, hs) →
      ResumableMedia.hget hs "content-type" = some u.contentType ∧
      (∀ k, k ≠ "content-range" → k ≠ "content-type" → ResumableMedia.hget hs k = none)) ∧
    (∀ hs, ResumableMedia.upload_prepare_recover_request u = Except.ok hs →
      hs = [("content-range", "bytes */*")] ∧
      (∀ k, k ≠ "content-range" → ResumableMedia.hget hs k = none)) ∧
    (∀ r, (ResumableMedia.transmit_next_chunk u r).1.headers = u.headers) ∧
    (∀ r, (ResumableMedia.recover u r).1.headers = u.headers) := by
  refine ⟨?_, ?_, ?_, ?_⟩
  · intro payload hs h
    unfold ResumableMedia.upload_prepare_request at h
    split at h
    · simp at h
    · split at h
      · simp at h
      · split at h
        · simp at h
        · split at h
          · simp at h
          · simp only [Except.ok.injEq, Prod.mk.injEq] at h
            obtain ⟨-, hhs⟩ := h
            subst hhs
            constructor
            · simp [ResumableMedia.hget]
            · intro k hk1 hk2
              simp [ResumableMedia.hget, Ne.symm hk1, Ne.symm hk2]
  · intro hs h
    unfold ResumableMedia.upload_prepare_recover_request at h
    split at h
    · simp only [Except.ok.injEq] at h
      subst h
      refine ⟨rfl, ?_⟩
      intro k hk
      simp [ResumableMedia.hget, Ne.symm hk]
    · simp at h
  · intro r
    unfold ResumableMedia.transmit_next_chunk
    split
    · rfl
    · exact ResumableMedia.upload_process_response_headers _ r
  · intro r
    unfold ResumableMedia.recover
    split
    · rfl
    · exact ResumableMedia.upload_process_recover_response_headers u r

/-- Witness for C10: the scenario of unit test
`test__prepare_request_success_with_headers` — caller headers hold a
`cannot: touch this` entry, the built mapping holds only the two engine
entries and no `cannot` key. -/
theorem C10_fresh_request_headers_witness :
    ResumableMedia.hget
        [("content-range", "bytes 0-32/33"), ("content-type", "text/plain")] "cannot" = none ∧
    ResumableMedia.hget
        [("content-range", "bytes 0-32/33"), ("content-type", "text/plain")] "content-type" =
      some "text/plain" := by
  have H := (C10_fresh_request_headers
    ⟨"u", 1048576, [("cannot", "touch this")], 0, 33, some "r",
      List.replicate 33 7, 0, "text/plain", false, false⟩).1
    (List.replicate 33 7)
    [("content-range", "bytes 0-32/33"), ("content-type", "text/plain")] rfl
  exact ⟨H.2 "cannot" (by decide) (by decide), H.1⟩

namespace ResumableMedia

/-! ### Chunked download state machine

Modelled from the spec (section 4.5, ChunkedDownload): the implementation
module is absent from this tree.  `consume_next_chunk` requires the
transfer to be unfinished, validates the status (200, 206 or 416),
parses the `Content-Range:` reply with `get_range_info`, appends the body
to the sink (the sink itself is not tracked here — no claim concerns it),
advances `bytes_downloaded` by `b - a + 1`, sets `total_bytes` on the
first response and requires later responses to agree, and finishes when
`bytes_downloaded` reaches the total or the response covered the caller's
`end`, or on a 416.  A raised exception is modelled as a `some` error
paired with the post-state. -/

structure ChunkedDownloadState where
  mediaUrl : String
  chunkSize : Nat
  start : Nat
  endOpt : Option Nat
  headers : Headers
  bytesDownloaded : Nat
  totalBytes : Option Nat
  finished : Bool
  invalid : Bool
deriving DecidableEq, Repr

structure ChunkResponse where
  status : Nat
  contentRange : Option String
deriving DecidableEq, Repr

/-- Parse the total out of a zero-content `Content-Range: bytes */<c>`
reply (case-insensitive leading token), used on 416 responses. -/
def parse_star_total_l (l : List Char) : Option Nat :=
  match l with
  | c1 :: c2 :: c3 :: c4 :: c5 :: ' ' :: '*' :: '/' :: rest =>
    if toLowerList [c1, c2, c3, c4, c5] = ['b', 'y', 't', 'e', 's'] ∧
        rest ≠ [] ∧ rest.all Char.isDigit then
      some (digitsVal rest)
    else none
  | _ => none

def parse_star_total (s : String) : Option Nat := parse_star_total_l s.toList

def total_on_416 (d : ChunkedDownloadState) (r : ChunkResponse) : Nat :=
  match d.totalBytes with
  | some t => t
  | none =>
    match r.contentRange with
    | none => 0
    | some cr => (parse_star_total cr).getD 0

def chunk_finished_after (d : ChunkedDownloadState) (b c newBytes : Nat) : Bool :=
  decide (newBytes = c) ||
    (match d.endOpt with
     | some e => decide (e ≤ b)
     | none => false)

def chunk_success_state (d : ChunkedDownloadState) (a b c : Nat) : ChunkedDownloadState :=
  { d with
    bytesDownloaded := d.bytesDownloaded + (b - a + 1),
    totalBytes := some c,
    finished := chunk_finished_after d b c (d.bytesDownloaded + (b - a + 1)) }

def chunked_process_response (d : ChunkedDownloadState) (r : ChunkResponse) :
    ChunkedDownloadState × Option TransferError :=
  if r.status = 416 then
    ({ d with finished := true, totalBytes := some (total_on_416 d r) }, none)
  else if r.status = 200 ∨ r.status = 206 then
    match r.contentRange with
    | none =>
      ({ d with invalid := true },
        some (.invalidResponse "Response headers must contain content-range header"))
    | some cr =>
      match get_range_info cr with
      | none =>
        ({ d with invalid := true },
          some (.invalidResponse "Unexpected content-range header"))
      | some (a, b, c) =>
        match d.totalBytes with
        | some t =>
          if c ≠ t then
            ({ d with invalid := true },
              some (.invalidResponse "The response total size must agree"))
          else (chunk_success_state d a b c, none)
        | none => (chunk_success_state d a b c, none)
  else
    ({ d with invalid := true },
      some (.invalidResponse "Request failed with unexpected status code"))

def consume_next_chunk (d : ChunkedDownloadState) (r : ChunkResponse) :
    ChunkedDownloadState × Option TransferError :=
  if d.finished then (d, some (.invalidState "Download has finished."))
  else chunked_process_response d r

/-- A sequence of `consume_next_chunk` calls that all succeed; `none` when
any call raises. -/
def chunked_run (d : ChunkedDownloadState) : List ChunkResponse → Option ChunkedDownloadState
  | [] => some d
  | r :: rs =>
    match consume_next_chunk d r with
    | (d2, none) => chunked_run d2 rs
    | (_, some _) => none

/-- The server reply is aligned with the client's position: a parsed
`Content-Range: bytes a-b/c` starts at `start + bytes_downloaded`, the
first byte the client asked for. -/
def chunkAligned (d : ChunkedDownloadState) (r : ChunkResponse) : Bool :=
  match r.contentRange with
  | none => true
  | some cr =>
    match get_range_info cr with
    | none => true
    | some (a, _b, _c) => a == d.start + d.bytesDownloaded

def chunkedAlignedRun (d : ChunkedDownloadState) : List ChunkResponse → Bool
  | [] => true
  | r :: rs =>
    chunkAligned d r &&
      (match consume_next_chunk d r with
       | (d2, none) => chunkedAlignedRun d2 rs
       | (_, some _) => true)

/-- The documented state invariant: `bytes_downloaded` is 0 until the
first successful response fixes `total_bytes` and never exceeds it
afterwards. -/
def ChunkWf (d : ChunkedDownloadState) : Prop :=
  match d.totalBytes with
  | none => d.bytesDownloaded = 0
  | some t => d.bytesDownloaded ≤ t

theorem get_range_info_ord (s : String) (a b c : Nat)
    (h : get_range_info s = some (a, b, c)) : a ≤ b ∧ b < c := by
  obtain ⟨-, -, -, -, -, -, -, -, -, -, -, -, hab, hbc⟩ :=
    get_range_info_l_sound s.toList a b c h
  exact ⟨hab, hbc⟩

end ResumableMedia

namespace ResumableMedia

theorem chunk_success_state_bytes (d : ChunkedDownloadState) (a b c : Nat) :
    (chunk_success_state d a b c).bytesDownloaded = d.bytesDownloaded + (b - a + 1) := rfl

theorem chunk_success_state_total (d : ChunkedDownloadState) (a b c : Nat) :
    (chunk_success_state d a b c).totalBytes = some c := rfl

theorem chunked_step_props (d d2 : ChunkedDownloadState) (r : ChunkResponse)
    (hwf : ChunkWf d) (hal : chunkAligned d r = true)
    (h : consume_next_chunk d r = (d2, none)) :
    ChunkWf d2 ∧ d.bytesDownloaded ≤ d2.bytesDownloaded := by
  unfold consume_next_chunk at h
  split at h
  · simp at h
  · unfold chunked_process_response at h
    split at h
    case isTrue h416 =>
      have h1 := congrArg Prod.fst h
      simp only at h1
      rw [← h1]
      refine ⟨?_, le_refl _⟩
      unfold ChunkWf at hwf ⊢
      unfold total_on_416
      rcases htot : d.totalBytes with _ | t <;> rw [htot] at hwf <;> simp only [htot] <;> omega
    case isFalse h416 =>
      split at h
      case isTrue hstat =>
        split at h
        case h_1 => simp at h
        case h_2 cr hcr =>
          split at h
          case h_1 => simp at h
          case h_2 trip a b c hp =>
            have hord := get_range_info_ord cr a b c hp
            have halign : a = d.start + d.bytesDownloaded := by
              unfold chunkAligned at hal
              simp only [hcr, hp] at hal
              simpa using hal
            split at h
            case h_1 t htot =>
              split at h
              case isTrue => simp at h
              case isFalse hct =>
                have h1 := congrArg Prod.fst h
                simp only at h1
                rw [← h1]
                constructor
                · unfold ChunkWf
                  rw [chunk_success_state_total, chunk_success_state_bytes]
                  omega
                · rw [chunk_success_state_bytes]
                  omega
            case h_2 htot =>
              have h1 := congrArg Prod.fst h
              simp only at h1
              rw [← h1]
              constructor
              · unfold ChunkWf
                rw [chunk_success_state_total, chunk_success_state_bytes]
                omega
              · rw [chunk_success_state_bytes]
                omega
      case isFalse => simp at h

theorem chunked_run_props (rs : List ChunkResponse) (d d2 : ChunkedDownloadState)
    (hwf : ChunkWf d) (hal : chunkedAlignedRun d rs = true)
    (h : chunked_run d rs = some d2) :
    ChunkWf d2 ∧ d.bytesDownloaded ≤ d2.bytesDownloaded := by
  induction rs generalizing d with
  | nil =>
    unfold chunked_run at h
    have hd : d = d2 := by simpa using h
    rw [← hd]
    exact ⟨hwf, le_refl _⟩
  | cons r rs ih =>
    unfold chunked_run at h
    unfold chunkedAlignedRun at hal
    rw [Bool.and_eq_true] at hal
    obtain ⟨hal1, hal2⟩ := hal
    split at h
    case h_1 dmid heq =>
      rw [heq] at hal2
      simp only at hal2
      have hstep := chunked_step_props d dmid r hwf hal1 heq
      have hrest := ih dmid hstep.1 hal2 h
      exact ⟨hrest.1, le_trans hstep.2 hrest.2⟩
    case h_2 => simp at h

end ResumableMedia

namespace ResumableMedia

theorem chunked_step_finished (d d2 : ChunkedDownloadState) (r : ChunkResponse)
    (h : consume_next_chunk d r = (d2, none)) :
    d2.finished = true ↔
      (r.status = 416 ∨ some d2.bytesDownloaded = d2.totalBytes ∨
        (∃ e cr a b c, d.endOpt = some e ∧ r.contentRange = some cr ∧
          get_range_info cr = some (a, b, c) ∧ e ≤ b)) := by
  unfold consume_next_chunk at h
  split at h
  · simp at h
  · unfold chunked_process_response at h
    split at h
    case isTrue h416 =>
      have h1 := congrArg Prod.fst h
      simp only at h1
      rw [← h1]
      simp [h416]
    case isFalse h416 =>
      split at h
      case isTrue hstat =>
        split at h
        case h_1 => simp at h
        case h_2 cr hcr =>
          split at h
          case h_1 => simp at h
          case h_2 trip a b c hp =>
            have hmain : d2 = chunk_success_state d a b c := by
              split at h
              case h_1 t htot =>
                split at h
                case isTrue => simp at h
                case isFalse hct =>
                  have h1 := congrArg Prod.fst h
                  simp only at h1
                  exact h1.symm
              case h_2 htot =>
                have h1 := congrArg Prod.fst h
                simp only at h1
                exact h1.symm
            rw [hmain, chunk_success_state_bytes, chunk_success_state_total]
            show chunk_finished_after d b c (d.bytesDownloaded + (b - a + 1)) = true ↔ _
            unfold chunk_finished_after
            constructor
            · intro hfin
              rw [Bool.or_eq_true] at hfin
              rcases hfin with hfin | hfin
              · exact Or.inr (Or.inl (by simpa using (decide_eq_true_eq.mp hfin)))
              · rcases hend : d.endOpt with _ | e
                · rw [hend] at hfin; simp at hfin
                · rw [hend] at hfin
                  refine Or.inr (Or.inr ⟨e, cr, a, b, c, rfl, hcr, hp, ?_⟩)
                  simpa using hfin
            · intro hr
              rcases hr with hr | hr | hr
              · exact absurd hr h416
              · rw [Bool.or_eq_true]
                exact Or.inl (by simpa using hr)
              · obtain ⟨e, cr2, a2, b2, c2, hend, hcr2, hp2, heb⟩ := hr
                rw [hcr] at hcr2
                injection hcr2 with hcr2
                rw [← hcr2] at hp2
                rw [hp] at hp2
                injection hp2 with hp2
                simp only [Prod.mk.injEq] at hp2
                obtain ⟨-, hb2, -⟩ := hp2
                rw [Bool.or_eq_true]
                refine Or.inr ?_
                rw [hend]
                simp only [decide_eq_true_eq]
                omega
      case isFalse => simp at h

theorem chunked_step_increment (d d2 : ChunkedDownloadState) (r : ChunkResponse)
    (cr : String) (a b c : Nat)
    (h : consume_next_chunk d r = (d2, none))
    (hstat : r.status = 200 ∨ r.status = 206)
    (hcr : r.contentRange = some cr) (hp : get_range_info cr = some (a, b, c)) :
    d2.bytesDownloaded = d.bytesDownloaded + (b - a + 1) ∧ d2.totalBytes = some c := by
  have h416 : ¬ r.status = 416 := by rcases hstat with h2 | h2 <;> omega
  unfold consume_next_chunk at h
  split at h
  · simp at h
  · unfold chunked_process_response at h
    rw [if_neg h416, if_pos hstat] at h
    rw [hcr] at h
    simp only at h
    rw [hp] at h
    simp only at h
    have hmain : d2 = chunk_success_state d a b c := by
      split at h
      case h_1 t htot =>
        split at h
        case isTrue => simp at h
        case isFalse hct =>
          have h1 := congrArg Prod.fst h
          simp only at h1
          exact h1.symm
      case h_2 htot =>
        have h1 := congrArg Prod.fst h
        simp only at h1
        exact h1.symm
    rw [hmain, chunk_success_state_bytes, chunk_success_state_total]
    exact ⟨rfl, rfl⟩

end ResumableMedia

namespace ResumableMedia

/-- Concrete states for the C2 scenario of unit test
`test_consume_next_chunk` (start 1536, chunk size 512, total 16384). -/
def c2d0 : ChunkedDownloadState := ⟨"u", 512, 1536, none, [], 0, none, false, false⟩

def c2resp : ChunkResponse := ⟨200, some "bytes 1536-2047/16384"⟩

def c2d1 : ChunkedDownloadState := ⟨"u", 512, 1536, none, [], 512, some 16384, false, false⟩

end ResumableMedia

/-- C2 (amended): for every `ChunkedDownload` and every sequence of
successful `consume_next_chunk` calls whose responses are aligned with the
requested position (the parsed `Content-Range` starts at
`start + bytes_downloaded`, as a conforming server replies),
`bytes_downloaded` is monotonically non-decreasing and — starting from a
state satisfying the documented invariant — remains bounded above by
`total_bytes` once `total_bytes` is known; after a 200/206 response whose
`Content-Range` parses to `(a, b, c)`, `bytes_downloaded` increases by
exactly `b - a + 1` and `total_bytes` is set to `c`; and `finished`
becomes true exactly when `bytes_downloaded` equals the total, or the
response covered the caller's `end`, or a 416 was observed.  (Without the
alignment hypothesis the bound fails; see the counterexample.) -/
theorem C2_chunked_download_invariants :
    (∀ (d d2 : ResumableMedia.ChunkedDownloadState) (rs : List ResumableMedia.ChunkResponse),
      ResumableMedia.ChunkWf d → ResumableMedia.chunkedAlignedRun d rs = true →
      ResumableMedia.chunked_run d rs = some d2 →
      ResumableMedia.ChunkWf d2 ∧ d.bytesDownloaded ≤ d2.bytesDownloaded) ∧
    (∀ (d d2 : ResumableMedia.ChunkedDownloadState) (r : ResumableMedia.ChunkResponse)
      (cr : String) (a b c : Nat),
      ResumableMedia.consume_next_chunk d r = (d2, none) →
      (r.status = 200 ∨ r.status = 206) →
      r.contentRange = some cr → ResumableMedia.get_range_info cr = some (a, b, c) →
      d2.bytesDownloaded = d.bytesDownloaded + (b - a + 1) ∧ d2.totalBytes = some c) ∧
    (∀ (d d2 : ResumableMedia.ChunkedDownloadState) (r : ResumableMedia.ChunkResponse),
      ResumableMedia.consume_next_chunk d r = (d2, none) →
      (d2.finished = true ↔
        (r.status = 416 ∨ some d2.bytesDownloaded = d2.totalBytes ∨
          (∃ e cr a b c, d.endOpt = some e ∧ r.contentRange = some cr ∧
            ResumableMedia.get_range_info cr = some (a, b, c) ∧ e ≤ b)))) := by
  refine ⟨?_, ?_, ?_⟩
  · intro d d2 rs hwf hal h
    exact ResumableMedia.chunked_run_props rs d d2 hwf hal h
  · intro d d2 r cr a b c h hstat hcr hp
    exact ResumableMedia.chunked_step_increment d d2 r cr a b c h hstat hcr hp
  · intro d d2 r h
    exact ResumableMedia.chunked_step_finished d d2 r h

/-- Witness for C2: the aligned single-chunk scenario of unit test
`test_consume_next_chunk` — 512 bytes downloaded, total fixed at 16384,
transfer still active. -/
theorem C2_chunked_download_invariants_witness :
    (ResumableMedia.ChunkWf ResumableMedia.c2d1 ∧
      ResumableMedia.c2d0.bytesDownloaded ≤ ResumableMedia.c2d1.bytesDownloaded) ∧
    (ResumableMedia.c2d1.bytesDownloaded =
        ResumableMedia.c2d0.bytesDownloaded + (2047 - 1536 + 1) ∧
      ResumableMedia.c2d1.totalBytes = some 16384) ∧
    (ResumableMedia.c2d1.finished = true ↔
      (ResumableMedia.c2resp.status = 416 ∨
        some ResumableMedia.c2d1.bytesDownloaded = ResumableMedia.c2d1.totalBytes ∨
        (∃ e cr a b c, ResumableMedia.c2d0.endOpt = some e ∧
          ResumableMedia.c2resp.contentRange = some cr ∧
          ResumableMedia.get_range_info cr = some (a, b, c) ∧ e ≤ b))) := by
  refine ⟨?_, ?_, ?_⟩
  · exact C2_chunked_download_invariants.1 ResumableMedia.c2d0 ResumableMedia.c2d1
      [ResumableMedia.c2resp] rfl (by decide) (by decide)
  · exact C2_chunked_download_invariants.2.1 ResumableMedia.c2d0 ResumableMedia.c2d1
      ResumableMedia.c2resp "bytes 1536-2047/16384" 1536 2047 16384
      (by decide) (Or.inl rfl) rfl (by decide)
  · exact C2_chunked_download_invariants.2.2 ResumableMedia.c2d0 ResumableMedia.c2d1
      ResumableMedia.c2resp (by decide)

/-- Counterexample for C2 as stated: two successful `consume_next_chunk`
calls against a server whose second reply restarts at offset 0
(`bytes 0-4/100` then `bytes 0-98/100`) leave `bytes_downloaded = 104`
above `total_bytes = 100` with the transfer unfinished — the claimed bound
`bytes_downloaded ≤ total_bytes` does not hold for arbitrary successful
responses, only for position-aligned ones. -/
theorem C2_counterexample_unaligned :
    ResumableMedia.chunked_run
        ⟨"u", 100, 0, none, [], 0, none, false, false⟩
        [⟨206, some "bytes 0-4/100"⟩, ⟨206, some "bytes 0-98/100"⟩] =
      some ⟨"u", 100, 0, none, [], 104, some 100, false, false⟩ ∧
    ¬ (104 ≤ 100) := by decide

namespace ResumableMedia

/-! ### Retry policy

Modelled from the spec (section 4.3) and pinned by the unit tests in
`tests/unit/test__helpers.py`: the implementation module is absent from
this tree.  `calculate_retry_wait n jitter` is `min(2^n, 64)` seconds plus
`jitter / 1000`, where `jitter` is what Python's
`random.randint(0, 1000)` returned — an integer from the INCLUSIVE range
`[0, 1000]` (the test `Test_calculate_retry_wait` pins the call
`random.randint(0, 1000)`).  `http_request` is the retry loop: a
non-retryable first response returns immediately; otherwise the loop runs
while the accumulated sleep time is below the ceiling, each iteration
sleeping one computed wait and issuing one request, returning the first
non-retryable response — or, once the accumulated sleep reaches the
ceiling, the last (still retryable) response.  The mocked trace of
`test_retry_exceeds_max_cumulative` (ceiling patched to 100, seven sleeps
totalling 129.625, eighth response surfaced) fixes this loop shape.
`events` pairs each retry's random jitter with the status of the response
the subsequent request receives; sleeps are returned for inspection. -/

def MAX_SLEEP : ℚ := 64

def MAX_CUMULATIVE_RETRY : ℚ := 600

def RETRYABLE : List Nat := [408, 429, 500, 502, 503, 504]

def calculate_retry_wait (n : Nat) (jitter : Nat) : ℚ :=
  ((min (2 ^ n) 64 : Nat) : ℚ) + (jitter : ℚ) / 1000

/-- Python's `random.randint(0, 1000)` is inclusive of both endpoints. -/
def validJitter (jitter : Nat) : Bool := jitter ≤ 1000

def retry_loop (maxCum : ℚ) : List (Nat × Nat) → Nat → ℚ → Nat → Option (Nat × List ℚ)
  | [], _, total, last => if maxCum ≤ total then some (last, []) else none
  | (jitter, status) :: rest, n, total, last =>
    if maxCum ≤ total then some (last, [])
    else
      if status ∈ RETRYABLE then
        match retry_loop maxCum rest (n + 1) (total + calculate_retry_wait n jitter) status with
        | none => none
        | some (s, ws) => some (s, calculate_retry_wait n jitter :: ws)
      else some (status, [calculate_retry_wait n jitter])

/-- The retry loop entry point: `first` is the status of the initial
response; on success returns the surfaced status and the list of sleeps
performed.  `none` models a transport trace too short for the loop. -/
def http_request (maxCum : ℚ) (first : Nat) (events : List (Nat × Nat)) :
    Option (Nat × List ℚ) :=
  if first ∈ RETRYABLE then retry_loop maxCum events 0 0 first
  else some (first, [])

theorem calculate_retry_wait_le (n jitter : Nat) (hj : validJitter jitter = true) :
    calculate_retry_wait n jitter ≤ MAX_SLEEP + 1 := by
  unfold calculate_retry_wait MAX_SLEEP
  have h1 : ((min (2 ^ n) 64 : Nat) : ℚ) ≤ 64 := by
    exact_mod_cast Nat.min_le_right (2 ^ n) 64
  have hj2 : (jitter : ℚ) ≤ 1000 := by
    have hj3 : jitter ≤ 1000 := by simpa [validJitter] using hj
    exact_mod_cast hj3
  have h2 : (jitter : ℚ) / 1000 ≤ 1 := by
    rw [div_le_one (by norm_num : (0 : ℚ) < 1000)]
    exact hj2
  linarith

theorem retry_loop_sleep_bound (maxCum : ℚ) (events : List (Nat × Nat)) :
    ∀ (n : Nat) (total : ℚ) (last s : Nat) (ws : List ℚ),
    (∀ ev ∈ events, validJitter ev.1 = true) →
    total < maxCum + MAX_SLEEP + 1 →
    retry_loop maxCum events n total last = some (s, ws) →
    total + ws.sum < maxCum + MAX_SLEEP + 1 := by
  induction events with
  | nil =>
    intro n total last s ws _ htot h
    unfold retry_loop at h
    split at h
    · simp only [Option.some.injEq, Prod.mk.injEq] at h
      obtain ⟨-, hws⟩ := h
      rw [← hws]
      simpa using htot
    · simp at h
  | cons ev rest ih =>
    intro n total last s ws hj htot h
    obtain ⟨jitter, status⟩ := ev
    have hjhead : validJitter jitter = true := hj (jitter, status) (List.mem_cons_self _ _)
    have hjrest : ∀ ev2 ∈ rest, validJitter ev2.1 = true :=
      fun ev2 hm => hj ev2 (List.mem_cons_of_mem _ hm)
    have hwait : calculate_retry_wait n jitter ≤ MAX_SLEEP + 1 :=
      calculate_retry_wait_le n jitter hjhead
    unfold retry_loop at h
    split at h
    case isTrue =>
      simp only [Option.some.injEq, Prod.mk.injEq] at h
      obtain ⟨-, hws⟩ := h
      rw [← hws]
      simpa using htot
    case isFalse hlt =>
      rw [not_le] at hlt
      split at h
      case isTrue =>
        split at h
        case h_1 => simp at h
        case h_2 s2 ws2 heq =>
          simp only [Option.some.injEq, Prod.mk.injEq] at h
          obtain ⟨hs2, hws⟩ := h
          have hrec := ih (n + 1) (total + calculate_retry_wait n jitter) status s2 ws2
            hjrest (by linarith) heq
          rw [← hws]
          simp only [List.sum_cons]
          linarith
      case isFalse =>
        simp only [Option.some.injEq, Prod.mk.injEq] at h
        obtain ⟨-, hws⟩ := h
        rw [← hws]
        simp only [List.sum_cons, List.sum_nil]
        linarith

theorem retry_loop_last_status (maxCum : ℚ) (events : List (Nat × Nat)) :
    ∀ (n : Nat) (total : ℚ) (last s : Nat) (ws : List ℚ),
    retry_loop maxCum events n total last = some (s, ws) →
    (ws = [] ∧ s = last) ∨
      (1 ≤ ws.length ∧ ws.length ≤ events.length ∧
        (events.get? (ws.length - 1)).map Prod.snd = some s) := by
  induction events with
  | nil =>
    intro n total last s ws h
    unfold retry_loop at h
    split at h
    · simp only [Option.some.injEq, Prod.mk.injEq] at h
      exact Or.inl ⟨h.2.symm, h.1.symm⟩
    · simp at h
  | cons ev rest ih =>
    intro n total last s ws h
    obtain ⟨jitter, status⟩ := ev
    unfold retry_loop at h
    split at h
    case isTrue =>
      simp only [Option.some.injEq, Prod.mk.injEq] at h
      exact Or.inl ⟨h.2.symm, h.1.symm⟩
    case isFalse hlt =>
      split at h
      case isTrue =>
        split at h
        case h_1 => simp at h
        case h_2 s2 ws2 heq =>
          simp only [Option.some.injEq, Prod.mk.injEq] at h
          obtain ⟨hs2, hws⟩ := h
          rcases ih (n + 1) (total + calculate_retry_wait n jitter) status s2 ws2 heq with
            ⟨hnil, hlast⟩ | ⟨hle1, hlen, hget⟩
          · refine Or.inr ?_
            rw [← hws, hnil]
            simp [← hs2, ← hlast]
          · refine Or.inr ?_
            rw [← hws]
            refine ⟨by simp, by simp; omega, ?_⟩
            rw [List.length_cons]
            rw [show ws2.length + 1 - 1 = ws2.length from by omega]
            rw [show ws2.length = (ws2.length - 1) + 1 from (Nat.succ_pred_eq_of_pos hle1).symm]
            rw [List.get?_cons_succ]
            rw [hs2] at hget
            exact hget
      case isFalse =>
        simp only [Option.some.injEq, Prod.mk.injEq] at h
        obtain ⟨hs2, hws⟩ := h
        refine Or.inr ?_
        rw [← hws, ← hs2]
        simp

end ResumableMedia

/-- C3 (amended): for every execution of the retry loop (`http_request`),
the total time slept is bounded — but by the ceiling plus one final wait
(below `MAX_CUMULATIVE_RETRY + MAX_SLEEP + 1`), not by the ceiling itself:
the loop checks the accumulated sleep before sleeping, so the last sleep
may carry the total past the ceiling (the repo's own test
`test_retry_exceeds_max_cumulative` sleeps 129.625 s against a ceiling of
100 s).  The number of attempts is finite (the sleeps are at most one per
transport event, one attempt each); the surfaced response is the first
one, when it is non-retryable, and otherwise the response of the last
attempt performed; a non-retryable first status is returned immediately
with no sleeps. -/
theorem C3_retry_loop_properties :
    (∀ (maxCum : ℚ) (first : Nat) (events : List (Nat × Nat)) (s : Nat) (ws : List ℚ),
      0 ≤ maxCum → (∀ ev ∈ events, ResumableMedia.validJitter ev.1 = true) →
      ResumableMedia.http_request maxCum first events = some (s, ws) →
      ws.sum < maxCum + ResumableMedia.MAX_SLEEP + 1) ∧
    (∀ (maxCum : ℚ) (first : Nat) (events : List (Nat × Nat)) (s : Nat) (ws : List ℚ),
      ResumableMedia.http_request maxCum first events = some (s, ws) →
      (ws = [] ∧ s = first) ∨
        (1 ≤ ws.length ∧ ws.length ≤ events.length ∧
          (events.get? (ws.length - 1)).map Prod.snd = some s)) ∧
    (∀ (maxCum : ℚ) (first : Nat) (events : List (Nat × Nat)),
      first ∉ ResumableMedia.RETRYABLE →
      ResumableMedia.http_request maxCum first events = some (first, [])) := by
  refine ⟨?_, ?_, ?_⟩
  · intro maxCum first events s ws hmax hj h
    unfold ResumableMedia.http_request at h
    split at h
    · have := ResumableMedia.retry_loop_sleep_bound maxCum events 0 0 first s ws hj
        (by have : (0:ℚ) ≤ ResumableMedia.MAX_SLEEP := by norm_num [ResumableMedia.MAX_SLEEP]
            linarith) h
      linarith
    · simp only [Option.some.injEq, Prod.mk.injEq] at h
      obtain ⟨-, hws⟩ := h
      rw [← hws]
      have : (0:ℚ) ≤ ResumableMedia.MAX_SLEEP := by norm_num [ResumableMedia.MAX_SLEEP]
      simp only [List.sum_nil]
      linarith
  · intro maxCum first events s ws h
    unfold ResumableMedia.http_request at h
    split at h
    · exact ResumableMedia.retry_loop_last_status maxCum events 0 0 first s ws h
    · simp only [Option.some.injEq, Prod.mk.injEq] at h
      exact Or.inl ⟨h.2.symm, h.1.symm⟩
  · intro maxCum first events hnr
    unfold ResumableMedia.http_request
    rw [if_neg hnr]

/-- Witness for C3: the mocked trace of unit test `test_success_with_retry`
(statuses 503, 429, 503, 200 and random draws 125, 625, 375) sleeps
1.125 + 2.625 + 4.375 seconds and surfaces the fourth response, and a
non-retryable 200 bypasses the loop. -/
theorem C3_retry_loop_properties_witness :
    ResumableMedia.http_request 600 503 [(125, 429), (625, 503), (375, 200)] =
      some (200, [1.125, 2.625, 4.375]) ∧
    ([1.125, 2.625, 4.375] : List ℚ).sum < 600 + ResumableMedia.MAX_SLEEP + 1 ∧
    ResumableMedia.http_request 600 200 [] = some (200, []) := by
  have htrace : ResumableMedia.http_request 600 503 [(125, 429), (625, 503), (375, 200)] =
      some (200, [1.125, 2.625, 4.375]) := by
    norm_num [ResumableMedia.http_request, ResumableMedia.retry_loop,
      ResumableMedia.calculate_retry_wait, ResumableMedia.RETRYABLE]
  refine ⟨htrace, ?_, ?_⟩
  · exact C3_retry_loop_properties.1 600 503 [(125, 429), (625, 503), (375, 200)] 200
      [1.125, 2.625, 4.375] (by norm_num) (by decide) htrace
  · exact C3_retry_loop_properties.2.2 600 200 [] (by decide)

/-- Counterexample for C3 as stated: with the default 600 s ceiling, a run
of fifteen retryable 503 responses (zero jitter) sleeps
1+2+4+8+16+32+64·9 = 639 seconds in total — the observed cumulative sleep
time EXCEEDS `MAX_CUMULATIVE_RETRY = 600`; the loop only stops retrying
after the accumulated sleep has reached the ceiling. -/
theorem C3_counterexample_sleep_exceeds_ceiling :
    (ResumableMedia.http_request ResumableMedia.MAX_CUMULATIVE_RETRY 503
        (List.replicate 15 (0, 503))).map (fun p => p.2.sum) = some 639 ∧
    ¬ ((639 : ℚ) ≤ ResumableMedia.MAX_CUMULATIVE_RETRY) := by
  constructor
  · norm_num [ResumableMedia.http_request, ResumableMedia.retry_loop,
      ResumableMedia.calculate_retry_wait, ResumableMedia.RETRYABLE,
      ResumableMedia.MAX_CUMULATIVE_RETRY, List.replicate]
  · norm_num [ResumableMedia.MAX_CUMULATIVE_RETRY]

/-- C4 (amended): for every zero-based retry count `n`, the computed
backoff is `calculate_retry_wait n jitter = min(2^n, 64) + jitter / 1000`
where `jitter` is a uniformly random integer drawn from the INCLUSIVE
range `[0, 1000]` (Python `random.randint(0, 1000)`), so each wait value
lies in the CLOSED interval `[min(2^n, 64), min(2^n, 64) + 1]` — not the
half-open interval claimed. -/
theorem C4_calculate_retry_wait_bounds (n jitter : Nat)
    (hj : ResumableMedia.validJitter jitter = true) :
    ((min (2 ^ n) 64 : Nat) : ℚ) ≤ ResumableMedia.calculate_retry_wait n jitter ∧
    ResumableMedia.calculate_retry_wait n jitter ≤ ((min (2 ^ n) 64 : Nat) : ℚ) + 1 := by
  unfold ResumableMedia.calculate_retry_wait
  have hj2 : (jitter : ℚ) ≤ 1000 := by
    have hj3 : jitter ≤ 1000 := by simpa [ResumableMedia.validJitter] using hj
    exact_mod_cast hj3
  constructor
  · have hpos : (0 : ℚ) ≤ (jitter : ℚ) / 1000 := by positivity
    linarith
  · have hle : (jitter : ℚ) / 1000 ≤ 1 := by
      rw [div_le_one (by norm_num : (0 : ℚ) < 1000)]
      exact hj2
    linarith

/-- Witness for C4: the draw of unit test `test_under_limit`
(`n = 4`, `random.randint` mocked to 875) gives a wait of 16.875 inside
the closed interval `[16, 17]`. -/
theorem C4_calculate_retry_wait_bounds_witness :
    ResumableMedia.calculate_retry_wait 4 875 = 16.875 ∧
    ((min (2 ^ 4) 64 : Nat) : ℚ) ≤ ResumableMedia.calculate_retry_wait 4 875 ∧
    ResumableMedia.calculate_retry_wait 4 875 ≤ ((min (2 ^ 4) 64 : Nat) : ℚ) + 1 := by
  exact ⟨by norm_num [ResumableMedia.calculate_retry_wait],
    C4_calculate_retry_wait_bounds 4 875 (by decide)⟩

/-- Counterexample for C4 as stated: Python's `random.randint(0, 1000)`
can return 1000 itself, and then the wait equals `min(2^n, 64) + 1`,
which is NOT inside the claimed half-open interval
`[min(2^n, 64), min(2^n, 64) + 1)`. -/
theorem C4_counterexample_jitter_1000 :
    ResumableMedia.validJitter 1000 = true ∧
    ResumableMedia.calculate_retry_wait 0 1000 = 2 ∧
    ¬ (ResumableMedia.calculate_retry_wait 0 1000 < ((min (2 ^ 0) 64 : Nat) : ℚ) + 1) := by
  refine ⟨rfl, ?_, ?_⟩
  · norm_num [ResumableMedia.calculate_retry_wait]
  · norm_num [ResumableMedia.calculate_retry_wait]

namespace ResumableMedia

/-! ### One-shot download with streamed checksum verification

Modelled from the spec (sections 4.2 and 4.5, Download) and the unit tests
in `tests/unit/requests/test_download.py`: the implementation module is
absent from this tree.  `consume` adds the `Range:` request header to the
transfer's stored headers (in place, per the shared-mutable-headers
contract), requires status 200/206, streams the body chunks to the sink
while feeding the checksum accumulator, and on a digest mismatch clears
the `Range:` header, marks the transfer finished and raises a
data-corruption error carrying the URL, the expected digest and the
computed digest.  MD5 and CRC32C themselves are external algorithms
consumed through an update/digest capability (spec section 9), so the
digest over the streamed body is a function parameter `digestFn`. -/

inductive ChecksumKind where
  | md5
  | crc32c
  | nochecksum
deriving DecidableEq, Repr

def checksumLabel : ChecksumKind → String
  | .md5 => "md5"
  | .crc32c => "crc32c"
  | .nochecksum => ""

structure DownloadState where
  mediaUrl : String
  headers : Headers
  start : Option Int
  endOpt : Option Int
  checksum : ChecksumKind
  finished : Bool
deriving DecidableEq, Repr

structure DownloadResponse where
  status : Nat
  chunks : List (List Nat)
  hashHeader : Option String
deriving DecidableEq, Repr

instance {eps alpha : Type} [DecidableEq eps] [DecidableEq alpha] :
    DecidableEq (Except eps alpha) :=
  fun x y =>
    match x, y with
    | .ok v, .ok w =>
      if h : v = w then isTrue (by rw [h]) else isFalse (fun hc => by cases hc; exact h rfl)
    | .error v, .error w =>
      if h : v = w then isTrue (by rw [h]) else isFalse (fun hc => by cases hc; exact h rfl)
    | .ok _, .error _ => isFalse (fun hc => by cases hc)
    | .error _, .ok _ => isFalse (fun hc => by cases hc)

/-- Split a header value at commas (structurally, so that concrete values
evaluate). -/
def splitOnComma (l : List Char) : List (List Char) :=
  match l with
  | [] => [[]]
  | c :: rest =>
    if c = ',' then [] :: splitOnComma rest
    else
      match splitOnComma rest with
      | [] => [[c]]
      | g :: gs => (c :: g) :: gs

/-- Split `label=value` at the FIRST `=` (base64 values may themselves end
in `=`). -/
def splitFirstEq (l : List Char) : Option (List Char × List Char) :=
  match l.dropWhile (fun c => c != '=') with
  | '=' :: rest => some (l.takeWhile (fun c => c != '='), rest)
  | _ => none

/-- Extract the digest for `label` from an `X-Goog-Hash` header value, a
comma-separated list of `label=base64` pairs: absent header or label →
no verification (`ok none`); several pairs with the same label →
invalid-response error. -/
def parse_checksum_header (headerValue : Option String) (label : String) :
    Except TransferError (Option String) :=
  match headerValue with
  | none => Except.ok none
  | some s =>
    match (splitOnComma s.toList).filterMap (fun part =>
      match splitFirstEq part with
      | some (n, v) => if n = label.toList then some (String.mk v) else none
      | none => none) with
    | [] => Except.ok none
    | [x] => Except.ok (some x)
    | _ => Except.error (.invalidResponse "Multiple matching checksums")

/-- One-shot `consume`: returns the post-state, the bytes appended to the
sink, and the raised error if any. -/
def download_consume (digestFn : List Nat → String) (d : DownloadState)
    (r : DownloadResponse) : DownloadState × List Nat × Option TransferError :=
  let headers1 := add_bytes_range d.start d.endOpt d.headers
  if r.status ≠ 200 ∧ r.status ≠ 206 then
    ({ d with headers := headers1, finished := true }, [],
      some (.invalidResponse "Request failed with unexpected status code"))
  else
    match d.checksum with
    | .nochecksum => ({ d with headers := headers1, finished := true }, r.chunks.flatten, none)
    | k =>
      match parse_checksum_header r.hashHeader (checksumLabel k) with
      | Except.error e =>
        ({ d with headers := headers1, finished := true }, r.chunks.flatten, some e)
      | Except.ok none =>
        ({ d with headers := headers1, finished := true }, r.chunks.flatten, none)
      | Except.ok (some expected) =>
        if expected ≠ digestFn r.chunks.flatten then
          ({ d with headers := hdel headers1 "range", finished := true }, r.chunks.flatten,
            some (.dataCorruption d.mediaUrl expected (digestFn r.chunks.flatten)))
        else ({ d with headers := headers1, finished := true }, r.chunks.flatten, none)

end ResumableMedia

/-- C5: for every `Download` with a selected checksum (md5 or crc32c) whose
response carries an expected digest that differs from the digest computed
over the body written to the sink, `consume` raises a data-corruption
error carrying the URL, the expected digest and the computed digest;
afterwards `finished` is true, the transfer's `Range:` request header has
been cleared from its headers mapping, and the whole body was still
written to the sink. -/
theorem C5_checksum_mismatch_corruption (digestFn : List Nat → String)
    (d : ResumableMedia.DownloadState) (r : ResumableMedia.DownloadResponse)
    (expected : String)
    (hk : d.checksum = ResumableMedia.ChecksumKind.md5 ∨
      d.checksum = ResumableMedia.ChecksumKind.crc32c)
    (hstat : r.status = 200 ∨ r.status = 206)
    (hexp : ResumableMedia.parse_checksum_header r.hashHeader
        (ResumableMedia.checksumLabel d.checksum) = Except.ok (some expected))
    (hne : expected ≠ digestFn r.chunks.flatten) :
    (ResumableMedia.download_consume digestFn d r).2.2 =
      some (ResumableMedia.TransferError.dataCorruption d.mediaUrl expected
        (digestFn r.chunks.flatten)) ∧
    (ResumableMedia.download_consume digestFn d r).1.finished = true ∧
    ResumableMedia.hget (ResumableMedia.download_consume digestFn d r).1.headers
      "range" = none ∧
    (ResumableMedia.download_consume digestFn d r).2.1 = r.chunks.flatten := by
  have hstat2 : ¬ (r.status ≠ 200 ∧ r.status ≠ 206) := by
    rcases hstat with h | h
    · exact fun hc => hc.1 h
    · exact fun hc => hc.2 h
  unfold ResumableMedia.download_consume
  rw [if_neg hstat2]
  rcases hk with hk | hk <;>
    · rw [hk]
      rw [hk] at hexp
      simp [hexp, hne, ResumableMedia.hget_hdel_self]

/-- Witness for C5: the scenario of unit test
`test_consume_with_stream_hash_check_fail` — body chunks `zero zero` and
`niner tango` (abbreviated here to their first bytes), expected md5 digest
`anVzdCBub3QgdGhpcyAxLA==`, computed digest `1A/dxEpys717C6FH7FIWDw==`. -/
theorem C5_checksum_mismatch_corruption_witness :
    (ResumableMedia.download_consume (fun _ => "1A/dxEpys717C6FH7FIWDw==")
        ⟨"https://example.invalid/media", [], none, none,
          ResumableMedia.ChecksumKind.md5, false⟩
        ⟨200, [[122], [110]],
          some "crc32c=anVzdCBub3QgdGhpcyAxLA==,md5=anVzdCBub3QgdGhpcyAxLA=="⟩).2.2 =
      some (ResumableMedia.TransferError.dataCorruption "https://example.invalid/media"
        "anVzdCBub3QgdGhpcyAxLA==" "1A/dxEpys717C6FH7FIWDw==") ∧
    (ResumableMedia.download_consume (fun _ => "1A/dxEpys717C6FH7FIWDw==")
        ⟨"https://example.invalid/media", [], none, none,
          ResumableMedia.ChecksumKind.md5, false⟩
        ⟨200, [[122], [110]],
          some "crc32c=anVzdCBub3QgdGhpcyAxLA==,md5=anVzdCBub3QgdGhpcyAxLA=="⟩).1.finished =
      true ∧
    ResumableMedia.hget
      (ResumableMedia.download_consume (fun _ => "1A/dxEpys717C6FH7FIWDw==")
        ⟨"https://example.invalid/media", [], none, none,
          ResumableMedia.ChecksumKind.md5, false⟩
        ⟨200, [[122], [110]],
          some "crc32c=anVzdCBub3QgdGhpcyAxLA==,md5=anVzdCBub3QgdGhpcyAxLA=="⟩).1.headers
      "range" = none ∧
    (ResumableMedia.download_consume (fun _ => "1A/dxEpys717C6FH7FIWDw==")
        ⟨"https://example.invalid/media", [], none, none,
          ResumableMedia.ChecksumKind.md5, false⟩
        ⟨200, [[122], [110]],
          some "crc32c=anVzdCBub3QgdGhpcyAxLA==,md5=anVzdCBub3QgdGhpcyAxLA=="⟩).2.1 =
      [[122], [110]].flatten := by
  exact C5_checksum_mismatch_corruption (fun _ => "1A/dxEpys717C6FH7FIWDw==") _ _
    "anVzdCBub3QgdGhpcyAxLA==" (Or.inl rfl) (Or.inl rfl) (by decide) (by decide)
